import Mathlib

/-!
Shallow embedding of the plist pretty-printer and base64 encoder of
`src/utils.c` (libimobiledevice-glue), together with theorems checking the
natural-language specification against it.

Bytes are modelled as `Nat` (the C `unsigned char` values are below 256; the
bound appears as a hypothesis where a property needs it).  The C output
stream is modelled by returning the written text as a `String`; the shared
`int *indent_level` is modelled by explicit state passing: each renderer
returns the pair (text written, final indent value).
-/

/-- Alphabet table `base64_str` from the source, as a list of characters. -/
def base64_str : List Char :=
  "ABCDEFGHIJKLMNOPQRSTUVWXYZabcdefghijklmnopqrstuvwxyz0123456789+/".data

/-- Padding character `base64_pad` from the source. -/
def base64_pad : Char := '='

/-- Table lookup `base64_str[i]`; every index produced by the encoder is
below 64, so the default is never hit on encoder-produced indices. -/
def base64_sym (i : Nat) : Char := base64_str.getD i ' '

/-- Body of the `while (n < size)` loop of `base64encode`: the buffer tail
starting at the current position `n`.  Three or more bytes left emits four
alphabet symbols; two bytes left pads the missing `input[2]` with 0 and
replaces the fourth symbol by the pad; one byte left pads `input[1]` and
`input[2]` with 0 and replaces the last two symbols by the pad. -/
def base64body : List Nat → List Char
  | b0 :: b1 :: b2 :: rest =>
      base64_sym (b0 >>> 2) ::
      base64_sym (((b0 &&& 3) <<< 4) + (b1 >>> 4)) ::
      base64_sym (((b1 &&& 15) <<< 2) + (b2 >>> 6)) ::
      base64_sym (b2 &&& 63) :: base64body rest
  | [b0, b1] =>
      [base64_sym (b0 >>> 2),
       base64_sym (((b0 &&& 3) <<< 4) + (b1 >>> 4)),
       base64_sym (((b1 &&& 15) <<< 2) + (0 >>> 6)),
       base64_pad]
  | [b0] =>
      [base64_sym (b0 >>> 2),
       base64_sym (((b0 &&& 3) <<< 4) + (0 >>> 4)),
       base64_pad, base64_pad]
  | [] => []

/-- Embedding of `base64encode(buf, size)`.  A NULL buffer is `none`; `size`
is the list length.  The source returns NULL when `!buf || !(size > 0)`. -/
def base64encode (buf : Option (List Nat)) : Option String :=
  match buf with
  | none => none
  | some bs => if bs.length > 0 then some (String.mk (base64body bs)) else none

theorem base64body_length : ∀ bs : List Nat,
    (base64body bs).length = ((bs.length + 2) / 3) * 4
  | [] => by simp [base64body]
  | [_] => by simp [base64body]
  | [_, _] => by simp [base64body]
  | _ :: _ :: _ :: rest => by
      simp only [base64body, List.length_cons, base64body_length rest]
      omega

example : base64encode (some [0x4D, 0x61, 0x6E]) = some "TWFu" := by decide

/-! Arithmetic readings of the bit operations used by the encoder. -/

theorem shiftr2_eq (b : Nat) : b >>> 2 = b / 4 := by
  rw [Nat.shiftRight_eq_div_pow]

theorem shiftr4_eq (b : Nat) : b >>> 4 = b / 16 := by
  rw [Nat.shiftRight_eq_div_pow]

theorem shiftr6_eq (b : Nat) : b >>> 6 = b / 64 := by
  rw [Nat.shiftRight_eq_div_pow]

theorem and3_eq (b : Nat) : b &&& 3 = b % 4 := by
  rw [Nat.and_pow_two_sub_one_eq_mod b 2]

theorem and15_eq (b : Nat) : b &&& 15 = b % 16 := by
  rw [Nat.and_pow_two_sub_one_eq_mod b 4]

theorem and63_eq (b : Nat) : b &&& 63 = b % 64 := by
  rw [Nat.and_pow_two_sub_one_eq_mod b 6]

theorem shiftl4_eq (b : Nat) : b <<< 4 = b * 16 := by
  rw [Nat.shiftLeft_eq]

theorem shiftl2_eq (b : Nat) : b <<< 2 = b * 4 := by
  rw [Nat.shiftLeft_eq]

/-- The four 6-bit indices of a full group are below 64 when the input
bytes are bytes. -/
theorem base64_idx_lt (b0 b1 b2 : Nat) (h0 : b0 < 256) (h1 : b1 < 256)
    (h2 : b2 < 256) :
    b0 >>> 2 < 64 ∧ ((b0 &&& 3) <<< 4) + (b1 >>> 4) < 64 ∧
      ((b1 &&& 15) <<< 2) + (b2 >>> 6) < 64 ∧ b2 &&& 63 < 64 := by
  rw [shiftr2_eq, shiftr4_eq, shiftr6_eq, and3_eq, and15_eq, and63_eq,
    shiftl4_eq, shiftl2_eq]
  omega

theorem base64_sym_lt_mem : ∀ i < 64, base64_sym i ∈ base64_str := by decide

theorem base64_sym_ne_pad (i : Nat) : base64_sym i ≠ base64_pad := by
  by_cases h : i < 64
  · revert i
    decide
  · unfold base64_sym
    rw [List.getD_eq_default]
    · decide
    · have : base64_str.length = 64 := by decide
      omega

theorem pad_ne_base64_sym (i : Nat) : ¬ (base64_pad = base64_sym i) :=
  fun h => base64_sym_ne_pad i h.symm

theorem base64body_mem : ∀ bs : List Nat, (∀ b ∈ bs, b < 256) →
    ∀ c ∈ base64body bs, c ∈ base64_str ∨ c = base64_pad
  | [], _, c, hc => by simp [base64body] at hc
  | [b0], h, c, hc => by
      have h0 : b0 < 256 := h b0 (by simp)
      obtain ⟨l1, l2, _, _⟩ := base64_idx_lt b0 0 0 h0 (by omega) (by omega)
      simp only [base64body, List.mem_cons, List.not_mem_nil, or_false] at hc
      rcases hc with rfl | rfl | rfl | rfl
      · exact Or.inl (base64_sym_lt_mem _ l1)
      · exact Or.inl (base64_sym_lt_mem _ l2)
      · exact Or.inr rfl
      · exact Or.inr rfl
  | [b0, b1], h, c, hc => by
      have h0 : b0 < 256 := h b0 (by simp)
      have h1 : b1 < 256 := h b1 (by simp)
      obtain ⟨l1, l2, l3, _⟩ := base64_idx_lt b0 b1 0 h0 h1 (by omega)
      simp only [base64body, List.mem_cons, List.not_mem_nil, or_false] at hc
      rcases hc with rfl | rfl | rfl | rfl
      · exact Or.inl (base64_sym_lt_mem _ l1)
      · exact Or.inl (base64_sym_lt_mem _ l2)
      · exact Or.inl (base64_sym_lt_mem _ l3)
      · exact Or.inr rfl
  | b0 :: b1 :: b2 :: rest, h, c, hc => by
      have h0 : b0 < 256 := h b0 (by simp)
      have h1 : b1 < 256 := h b1 (by simp)
      have h2 : b2 < 256 := h b2 (by simp)
      obtain ⟨l1, l2, l3, l4⟩ := base64_idx_lt b0 b1 b2 h0 h1 h2
      simp only [base64body, List.mem_cons] at hc
      rcases hc with rfl | rfl | rfl | rfl | hmem
      · exact Or.inl (base64_sym_lt_mem _ l1)
      · exact Or.inl (base64_sym_lt_mem _ l2)
      · exact Or.inl (base64_sym_lt_mem _ l3)
      · exact Or.inl (base64_sym_lt_mem _ l4)
      · exact base64body_mem rest (fun b hb => h b (by simp [hb])) c hmem

theorem base64body_pad_last : ∀ (bs : List Nat) (i : Nat),
    i + 2 < (base64body bs).length →
    (base64body bs).getD i 'A' ≠ base64_pad
  | [], i, h => by simp [base64body] at h
  | [b0], i, h => by
      simp only [base64body, List.length_cons, List.length_nil] at h
      match i with
      | 0 => exact base64_sym_ne_pad _
      | 1 => exact base64_sym_ne_pad _
  | [b0, b1], i, h => by
      simp only [base64body, List.length_cons, List.length_nil] at h
      match i with
      | 0 => exact base64_sym_ne_pad _
      | 1 => exact base64_sym_ne_pad _
  | b0 :: b1 :: b2 :: rest, i, h => by
      simp only [base64body, List.length_cons] at h ⊢
      match i with
      | 0 => exact base64_sym_ne_pad _
      | 1 => exact base64_sym_ne_pad _
      | 2 => exact base64_sym_ne_pad _
      | 3 => exact base64_sym_ne_pad _
      | (n + 4) =>
          exact base64body_pad_last rest n (by omega)

theorem base64body_pad_iff : ∀ bs : List Nat,
    base64_pad ∈ base64body bs ↔ bs.length % 3 ≠ 0
  | [] => by simp [base64body]
  | [b0] => by simp [base64body]
  | [b0, b1] => by simp [base64body]
  | b0 :: b1 :: b2 :: rest => by
      simp only [base64body, List.mem_cons, pad_ne_base64_sym, false_or,
        base64body_pad_iff rest, List.length_cons]
      omega

/-! The plist node model.  `pNull` stands for a NULL `plist_t` pointer;
`pUnknown` stands for a node whose type falls into the `default:` case of
the dispatcher's switch.  `pReal` carries the text that `fprintf("%f")`
produces for the stored double: the floating-point formatting itself is
outside the shallow embedding and none of the claims depend on it.
`pUInt` carries the `uint64_t` value as a `Nat`. -/

inductive PNode where
  | pNull : PNode
  | pBool : Bool → PNode
  | pUInt : Nat → PNode
  | pReal : String → PNode
  | pString : String → PNode
  | pKey : String → PNode
  | pData : List Nat → PNode
  | pDate : Int → Int → PNode
  | pArray : List PNode → PNode
  | pDict : List (String × PNode) → PNode
  | pUnknown : PNode

/-- Modelled from the spec: the fixed reference epoch offset distinct from
the standard Unix epoch.  The constant comes from a header of the external
plist library (not part of this repository); it is the number of seconds
between 1970-01-01 and 2001-01-01. -/
def MAC_EPOCH : Int := 978307200

/-- Modelled from the spec: the calendar conversion used for Date nodes is
the composition of the C library calls `localtime` and `strftime` with the
source's `"%Y-%m-%dT%H:%M:%SZ"` format, which are external to this
repository.  It is modelled as an abstract parameter taking the adjusted
timestamp to the formatted text, or to `none` when `localtime` returns NULL
or `strftime` returns a non-positive count. -/
def CalendarFmt : Type := Int → Option String

/-- The number of spaces written by `fprintf(stream, "%*s", n, "")`. -/
def indentFill (n : Int) : String := String.mk (List.replicate n.natAbs ' ')

mutual

/-- Embedding of `plist_array_print_to_stream`.  The extra argument `i` is
the loop counter of the `for` loop; the C function always starts it at 0 and
callers of this definition pass 0.  The `int *indent_level` pointer is the
threaded `ind` component of the result. -/
def plist_array_print_to_stream (lf : CalendarFmt) :
    List PNode → Nat → Int → String × Int
  | [], _, ind => ("", ind)
  | subnode :: rest, i, ind =>
      let r := plist_node_print_to_stream lf subnode ind
      let r2 := plist_array_print_to_stream lf rest (i + 1) r.2
      (indentFill ind ++ toString i ++ ": " ++ r.1 ++ r2.1, r2.2)

/-- Embedding of `plist_dict_print_to_stream`: the `while (subnode)` loop
over the key/value pairs yielded by the dict iterator, in iteration order. -/
def plist_dict_print_to_stream (lf : CalendarFmt) :
    List (String × PNode) → Int → String × Int
  | [], ind => ("", ind)
  | (key, subnode) :: rest, ind =>
      let tag := match subnode with
        | PNode.pArray items => "[" ++ toString items.length ++ "]: "
        | _ => ": "
      let r := plist_node_print_to_stream lf subnode ind
      let r2 := plist_dict_print_to_stream lf rest r.2
      (indentFill ind ++ key ++ tag ++ r.1 ++ r2.1, r2.2)

/-- Embedding of `plist_node_print_to_stream`, the type dispatcher. -/
def plist_node_print_to_stream (lf : CalendarFmt) : PNode → Int → String × Int
  | PNode.pNull, ind => ("", ind)
  | PNode.pBool b, ind => ((if b then "true" else "false") ++ "\n", ind)
  | PNode.pUInt u, ind => (toString u ++ "\n", ind)
  | PNode.pReal s, ind => (s ++ "\n", ind)
  | PNode.pString s, ind => (s ++ "\n", ind)
  | PNode.pKey s, ind => (s ++ ": ", ind)
  | PNode.pData data, ind =>
      (if data.length > 0 then
        match base64encode (some data) with
        | some s => s ++ "\n"
        | none => "\n"
      else "\n", ind)
  | PNode.pDate sec _usec, ind =>
      (match lf (sec + MAC_EPOCH) with
       | some s => s ++ "\n"
       | none => "\n", ind)
  | PNode.pArray items, ind =>
      let r := plist_array_print_to_stream lf items 0 (ind + 1)
      ("\n" ++ r.1, r.2 - 1)
  | PNode.pDict pairs, ind =>
      let r := plist_dict_print_to_stream lf pairs (ind + 1)
      ("\n" ++ r.1, r.2 - 1)
  | PNode.pUnknown, ind => ("", ind)

end

/-- Embedding of `plist_print_to_stream_with_indentation`.  The `stream`
flag is whether the `FILE *` argument is non-NULL; a NULL stream or NULL
plist writes nothing. -/
def plist_print_to_stream_with_indentation (lf : CalendarFmt) (plist : PNode)
    (stream : Bool) (indentation : Nat) : String :=
  match plist, stream with
  | PNode.pNull, _ => ""
  | _, false => ""
  | PNode.pDict pairs, true =>
      (plist_dict_print_to_stream lf pairs (indentation : Int)).1
  | PNode.pArray items, true =>
      (plist_array_print_to_stream lf items 0 (indentation : Int)).1
  | node, true => (plist_node_print_to_stream lf node (indentation : Int)).1

/-- Embedding of `plist_print_to_stream`: the convenience entry point with
indentation 0. -/
def plist_print_to_stream (lf : CalendarFmt) (plist : PNode) (stream : Bool) :
    String :=
  plist_print_to_stream_with_indentation lf plist stream 0

/-- A calendar conversion that always fails, for concrete instances. -/
def lfNone : CalendarFmt := fun _ => none

/-- Concatenation of a list of strings, in order. -/
def strConcat (l : List String) : String := l.foldr (· ++ ·) ""

/-- The extra text a dict entry gets between its key and the ": " separator
when its value is an array: the bracketed child count. -/
def dictArrayTag : PNode → String
  | PNode.pArray items => "[" ++ toString items.length ++ "]"
  | _ => ""

mutual

theorem plist_array_print_snd (lf : CalendarFmt) :
    ∀ (l : List PNode) (i : Nat) (ind : Int),
      (plist_array_print_to_stream lf l i ind).2 = ind
  | [], _, _ => rfl
  | sub :: rest, i, ind => by
      simp only [plist_array_print_to_stream]
      rw [plist_node_print_snd lf sub ind]
      exact plist_array_print_snd lf rest (i + 1) ind

theorem plist_dict_print_snd (lf : CalendarFmt) :
    ∀ (l : List (String × PNode)) (ind : Int),
      (plist_dict_print_to_stream lf l ind).2 = ind
  | [], _ => rfl
  | (key, sub) :: rest, ind => by
      simp only [plist_dict_print_to_stream]
      rw [plist_node_print_snd lf sub ind]
      exact plist_dict_print_snd lf rest ind

theorem plist_node_print_snd (lf : CalendarFmt) :
    ∀ (n : PNode) (ind : Int), (plist_node_print_to_stream lf n ind).2 = ind
  | PNode.pNull, _ => rfl
  | PNode.pBool _, _ => rfl
  | PNode.pUInt _, _ => rfl
  | PNode.pReal _, _ => rfl
  | PNode.pString _, _ => rfl
  | PNode.pKey _, _ => rfl
  | PNode.pData _, _ => rfl
  | PNode.pDate _ _, _ => rfl
  | PNode.pArray items, ind => by
      simp only [plist_node_print_to_stream]
      rw [plist_array_print_snd lf items 0 (ind + 1)]
      omega
  | PNode.pDict pairs, ind => by
      simp only [plist_node_print_to_stream]
      rw [plist_dict_print_snd lf pairs (ind + 1)]
      omega
  | PNode.pUnknown, _ => rfl

end

theorem plist_array_print_fst (lf : CalendarFmt) (l : List PNode) :
    ∀ (i : Nat) (ind : Int),
      (plist_array_print_to_stream lf l i ind).1 =
        strConcat ((l.enumFrom i).map fun p =>
          indentFill ind ++ toString p.1 ++ ": " ++
            (plist_node_print_to_stream lf p.2 ind).1) := by
  induction l with
  | nil => intro i ind; rfl
  | cons sub rest ih =>
      intro i ind
      simp only [plist_array_print_to_stream, plist_node_print_snd,
        List.enumFrom, List.map_cons, strConcat, List.foldr_cons, ih]

theorem dictArrayTag_sep (v : PNode) :
    (match v with
      | PNode.pArray items => "[" ++ toString items.length ++ "]: "
      | _ => ": ") = dictArrayTag v ++ ": " := by
  cases v <;> try rfl
  rw [dictArrayTag, String.append_assoc]
  rfl

/-! Depth-indexed renderer, following the spec's words.  The spec's design
note describes the indent as "abstractly a depth-scoped context value" that
can equivalently be "an explicit depth parameter passed by value into each
recursive call (incremented going down, naturally restored on return)".
The three `spec…Render` functions below re-state the renderer that way: the
parameter `d` handed to a container's item renderer is the starting indent
plus the container's structural depth from the root (the root container at
depth 0).  The equivalence theorem transfers this depth reading to the
stateful embedding, establishing that the indent in effect while a
container's children are rendered equals the container's depth. -/

mutual

/-- Depth-indexed counterpart of the sequence renderer: `d` is passed by
value, never mutated. -/
def specArrayRender (lf : CalendarFmt) : List PNode → Nat → Int → String
  | [], _, _ => ""
  | sub :: rest, i, d =>
      indentFill d ++ toString i ++ ": " ++ specNodeRender lf sub d ++
        specArrayRender lf rest (i + 1) d

/-- Depth-indexed counterpart of the mapping renderer. -/
def specDictRender (lf : CalendarFmt) : List (String × PNode) → Int → String
  | [], _ => ""
  | (key, sub) :: rest, d =>
      indentFill d ++ key ++ dictArrayTag sub ++ ": " ++
        specNodeRender lf sub d ++ specDictRender lf rest d

/-- Depth-indexed counterpart of the type dispatcher: a container's children
are rendered at `d + 1`, one deeper than the container itself was reached. -/
def specNodeRender (lf : CalendarFmt) : PNode → Int → String
  | PNode.pNull, _ => ""
  | PNode.pBool b, _ => (if b then "true" else "false") ++ "\n"
  | PNode.pUInt u, _ => toString u ++ "\n"
  | PNode.pReal s, _ => s ++ "\n"
  | PNode.pString s, _ => s ++ "\n"
  | PNode.pKey s, _ => s ++ ": "
  | PNode.pData data, _ =>
      if data.length > 0 then
        match base64encode (some data) with
        | some s => s ++ "\n"
        | none => "\n"
      else "\n"
  | PNode.pDate sec _usec, _ =>
      match lf (sec + MAC_EPOCH) with
      | some s => s ++ "\n"
      | none => "\n"
  | PNode.pArray items, d => "\n" ++ specArrayRender lf items 0 (d + 1)
  | PNode.pDict pairs, d => "\n" ++ specDictRender lf pairs (d + 1)
  | PNode.pUnknown, _ => ""

end

/-- Depth-indexed counterpart of the entry point: the root container's
items are rendered at depth `indentation` itself. -/
def specPrint (lf : CalendarFmt) (plist : PNode) (stream : Bool)
    (indentation : Nat) : String :=
  match plist, stream with
  | PNode.pNull, _ => ""
  | _, false => ""
  | PNode.pDict pairs, true => specDictRender lf pairs (indentation : Int)
  | PNode.pArray items, true => specArrayRender lf items 0 (indentation : Int)
  | node, true => specNodeRender lf node (indentation : Int)

mutual

theorem plist_array_print_spec (lf : CalendarFmt) :
    ∀ (l : List PNode) (i : Nat) (ind : Int),
      (plist_array_print_to_stream lf l i ind).1 = specArrayRender lf l i ind
  | [], _, _ => rfl
  | sub :: rest, i, ind => by
      simp only [plist_array_print_to_stream, specArrayRender,
        plist_node_print_snd, plist_node_print_spec lf sub ind,
        plist_array_print_spec lf rest (i + 1) ind]

theorem plist_dict_print_spec (lf : CalendarFmt) :
    ∀ (l : List (String × PNode)) (ind : Int),
      (plist_dict_print_to_stream lf l ind).1 = specDictRender lf l ind
  | [], _ => rfl
  | (key, sub) :: rest, ind => by
      simp only [plist_dict_print_to_stream, specDictRender,
        plist_node_print_snd, plist_node_print_spec lf sub ind,
        plist_dict_print_spec lf rest ind, dictArrayTag_sep]
      simp [String.append_assoc]

theorem plist_node_print_spec (lf : CalendarFmt) :
    ∀ (n : PNode) (ind : Int),
      (plist_node_print_to_stream lf n ind).1 = specNodeRender lf n ind
  | PNode.pNull, _ => rfl
  | PNode.pBool _, _ => rfl
  | PNode.pUInt _, _ => rfl
  | PNode.pReal _, _ => rfl
  | PNode.pString _, _ => rfl
  | PNode.pKey _, _ => rfl
  | PNode.pData _, _ => rfl
  | PNode.pDate _ _, _ => rfl
  | PNode.pArray items, ind => by
      simp only [plist_node_print_to_stream, specNodeRender,
        plist_array_print_spec lf items 0 (ind + 1)]
  | PNode.pDict pairs, ind => by
      simp only [plist_node_print_to_stream, specNodeRender,
        plist_dict_print_spec lf pairs (ind + 1)]
  | PNode.pUnknown, _ => rfl

end

theorem plist_print_spec (lf : CalendarFmt) (plist : PNode) (stream : Bool)
    (indentation : Nat) :
    plist_print_to_stream_with_indentation lf plist stream indentation =
      specPrint lf plist stream indentation := by
  cases stream <;> cases plist <;>
    simp [plist_print_to_stream_with_indentation, specPrint,
      plist_node_print_spec, plist_array_print_spec, plist_dict_print_spec]

theorem plist_dict_print_fst (lf : CalendarFmt) (l : List (String × PNode)) :
    ∀ (ind : Int),
      (plist_dict_print_to_stream lf l ind).1 =
        strConcat (l.map fun kv =>
          indentFill ind ++ kv.1 ++ dictArrayTag kv.2 ++ ": " ++
            (plist_node_print_to_stream lf kv.2 ind).1) := by
  induction l with
  | nil => intro ind; rfl
  | cons kv rest ih =>
      obtain ⟨key, sub⟩ := kv
      intro ind
      simp only [plist_dict_print_to_stream, plist_node_print_snd,
        List.map_cons, strConcat, List.foldr_cons, ih, dictArrayTag_sep]
      simp [strConcat, String.append_assoc]

/-! Claim theorems. -/

/-- C1: the encoder maps each consecutive 3-byte group to four symbols with
the bit layout symbol0 = top 6 bits of byte0, symbol1 = bottom 2 bits of
byte0 plus top 4 bits of byte1, symbol2 = bottom 4 bits of byte1 plus top 2
bits of byte2, symbol3 = bottom 6 bits of byte2; for a short final group the
missing bytes are treated as 0 and the unused trailing symbols become the
padding symbol (one pad for 2 remaining bytes, two pads for 1 remaining
byte); and encoding [0x4D, 0x61, 0x6E] yields exactly "TWFu". -/
theorem C1_group_layout_and_padding :
    (∀ (b0 b1 b2 : Nat) (rest : List Nat),
        base64body (b0 :: b1 :: b2 :: rest) =
          base64_sym (b0 / 4) :: base64_sym (b0 % 4 * 16 + b1 / 16) ::
          base64_sym (b1 % 16 * 4 + b2 / 64) :: base64_sym (b2 % 64) ::
          base64body rest) ∧
    (∀ b0 b1 : Nat, base64body [b0, b1] =
        [base64_sym (b0 / 4), base64_sym (b0 % 4 * 16 + b1 / 16),
         base64_sym (b1 % 16 * 4 + 0 / 64), base64_pad]) ∧
    (∀ b0 : Nat, base64body [b0] =
        [base64_sym (b0 / 4), base64_sym (b0 % 4 * 16 + 0 / 16),
         base64_pad, base64_pad]) ∧
    base64encode (some [0x4D, 0x61, 0x6E]) = some "TWFu" := by
  refine ⟨?_, ?_, ?_, by decide⟩ <;>
    intros <;>
    simp [base64body, shiftr2_eq, shiftr4_eq, shiftr6_eq, and3_eq, and15_eq,
      and63_eq, shiftl4_eq, shiftl2_eq]

/-- C2: for a non-null buffer of positive length the encoder returns a text
of length exactly ceil(L/3)*4, a multiple of 4; it returns absent exactly
when the buffer is null or the length is zero. -/
theorem C2_output_length :
    (∀ (bs : List Nat) (out : String), base64encode (some bs) = some out →
        out.length = ((bs.length + 2) / 3) * 4 ∧ out.length % 4 = 0) ∧
    (∀ buf : Option (List Nat),
        base64encode buf = none ↔ buf = none ∨ buf = some []) := by
  constructor
  · intro bs out h
    have hne : bs.length > 0 := by
      by_contra hn
      simp [base64encode, Nat.not_lt.mp (by omega : ¬ 0 < bs.length)] at h
      omega
    simp only [base64encode, if_pos hne, Option.some.injEq] at h
    subst h
    refine ⟨base64body_length bs, ?_⟩
    rw [show (String.mk (base64body bs)).length = (base64body bs).length
      from rfl, base64body_length bs]
    omega
  · intro buf
    match buf with
    | none => simp [base64encode]
    | some bs =>
        cases bs with
        | nil => simp [base64encode]
        | cons b rest => simp [base64encode]

/-- Witness for C2 at the concrete input [1, 2, 3] and at an empty buffer. -/
theorem C2_output_length_witness :
    ("AQID".length = ((([1, 2, 3] : List Nat).length + 2) / 3) * 4 ∧
      "AQID".length % 4 = 0) ∧
    (base64encode (some []) = none ↔
      (some [] : Option (List Nat)) = none ∨ some [] = some ([] : List Nat)) :=
  ⟨C2_output_length.1 [1, 2, 3] "AQID" (by decide), C2_output_length.2 (some [])⟩

/-- C10: for a non-null, non-empty byte buffer, every character of the
encoder's output is one of the 64 alphabet symbols or the padding symbol;
the alphabet consists of uppercase letters, lowercase letters, digits, '+'
and '/'; the padding symbol occurs only in the last two output positions,
and it occurs at all iff the input length is not a multiple of 3. -/
theorem C10_output_alphabet :
    (∀ c ∈ base64_str,
        c.isUpper ∨ c.isLower ∨ c.isDigit ∨ c = '+' ∨ c = '/') ∧
    (∀ bs : List Nat, bs ≠ [] → (∀ b ∈ bs, b < 256) →
      ∀ out : String, base64encode (some bs) = some out →
        (∀ c ∈ out.data, c ∈ base64_str ∨ c = base64_pad) ∧
        (∀ i : Nat, i + 2 < out.length → out.data.getD i 'A' ≠ base64_pad) ∧
        (base64_pad ∈ out.data ↔ bs.length % 3 ≠ 0)) := by
  refine ⟨by decide, ?_⟩
  intro bs hne hbytes out hout
  have hlen : bs.length > 0 := List.length_pos.mpr hne
  simp only [base64encode, if_pos hlen, Option.some.injEq] at hout
  subst hout
  exact ⟨base64body_mem bs hbytes, base64body_pad_last bs,
    base64body_pad_iff bs⟩

/-- Witness for C10 at the concrete one-byte input [1], whose encoding
"AQ==" carries two padding characters. -/
theorem C10_output_alphabet_witness :
    (∀ c ∈ "AQ==".data, c ∈ base64_str ∨ c = base64_pad) ∧
    (∀ i : Nat, i + 2 < "AQ==".length →
        "AQ==".data.getD i 'A' ≠ base64_pad) ∧
    (base64_pad ∈ "AQ==".data ↔ ([1] : List Nat).length % 3 ≠ 0) :=
  C10_output_alphabet.2 [1] (by decide) (by decide) "AQ==" (by decide)

/-- C3: the dispatcher brackets every Sequence or Mapping node with exactly
one increment of the shared indent counter before its children and one
decrement after, so the counter returns to its pre-call value; the renderers
likewise leave the counter unchanged; and the stateful render coincides with
the depth-indexed renderer, under which the indent in effect for a
container's children is the starting indent plus the container's structural
depth (root at depth 0). -/
theorem C3_indent_discipline :
    (∀ (lf : CalendarFmt) (items : List PNode) (ind : Int),
        plist_node_print_to_stream lf (PNode.pArray items) ind =
          ("\n" ++ (plist_array_print_to_stream lf items 0 (ind + 1)).1, ind)) ∧
    (∀ (lf : CalendarFmt) (pairs : List (String × PNode)) (ind : Int),
        plist_node_print_to_stream lf (PNode.pDict pairs) ind =
          ("\n" ++ (plist_dict_print_to_stream lf pairs (ind + 1)).1, ind)) ∧
    (∀ (lf : CalendarFmt) (n : PNode) (ind : Int),
        (plist_node_print_to_stream lf n ind).2 = ind) ∧
    (∀ (lf : CalendarFmt) (l : List PNode) (i : Nat) (ind : Int),
        (plist_array_print_to_stream lf l i ind).2 = ind) ∧
    (∀ (lf : CalendarFmt) (l : List (String × PNode)) (ind : Int),
        (plist_dict_print_to_stream lf l ind).2 = ind) ∧
    (∀ (lf : CalendarFmt) (n : PNode) (ind : Int),
        (plist_node_print_to_stream lf n ind).1 = specNodeRender lf n ind) ∧
    (∀ (lf : CalendarFmt) (root : PNode) (st : Bool) (i : Nat),
        plist_print_to_stream_with_indentation lf root st i =
          specPrint lf root st i) := by
  refine ⟨?_, ?_, plist_node_print_snd, plist_array_print_snd,
    plist_dict_print_snd, plist_node_print_spec, plist_print_spec⟩
  · intro lf items ind
    simp only [plist_node_print_to_stream, plist_array_print_snd,
      add_sub_cancel_right]
  · intro lf pairs ind
    simp only [plist_node_print_to_stream, plist_dict_print_snd,
      add_sub_cancel_right]

/-- C4: the mapping renderer processes the key/value pairs in iteration
order, writing for each entry the indent spaces, the key exactly once
immediately before its value, the bracketed child count when the value is a
Sequence and nothing extra otherwise, then the ": " separator and the
value's rendering; a sole entry whose value is a 3-element Sequence yields
"[3]" immediately after the key and before the newline-prefixed children. -/
theorem C4_dict_renderer :
    (∀ (lf : CalendarFmt) (pairs : List (String × PNode)) (ind : Int),
        (plist_dict_print_to_stream lf pairs ind).1 =
          strConcat (pairs.map fun kv =>
            indentFill ind ++ kv.1 ++ dictArrayTag kv.2 ++ ": " ++
              (plist_node_print_to_stream lf kv.2 ind).1)) ∧
    (∀ items : List PNode,
        dictArrayTag (PNode.pArray items) =
          "[" ++ toString items.length ++ "]") ∧
    ((plist_dict_print_to_stream lfNone
        [("key", PNode.pArray
            [PNode.pString "a", PNode.pString "b", PNode.pString "c"])] 0).1 =
      "key" ++ "[3]" ++ ": " ++ "\n" ++ " 0: a\n" ++ " 1: b\n" ++ " 2: c\n") := by
  exact ⟨plist_dict_print_fst, fun items => rfl, by decide⟩

/-- C5: the sequence renderer visits its children in order and renders the
child at zero-based position i as the indent spaces, the decimal digits of
i, the ": " separator and the dispatcher's rendering of the child at the
current indent; the labels are the contiguous range 0, 1, ..., count-1. -/
theorem C5_array_renderer :
    (∀ (lf : CalendarFmt) (items : List PNode) (ind : Int),
        (plist_array_print_to_stream lf items 0 ind).1 =
          strConcat (items.enum.map fun p =>
            indentFill ind ++ toString p.1 ++ ": " ++
              (plist_node_print_to_stream lf p.2 ind).1)) ∧
    (∀ items : List PNode,
        items.enum.map Prod.fst = List.range items.length) := by
  constructor
  · intro lf items ind
    exact plist_array_print_fst lf items 0 ind
  · intro items
    exact List.enum_map_fst items

/-- C6: the entry point writes nothing when the root or the stream is
null; a Mapping root delegates directly to the mapping renderer, a Sequence
root directly to the sequence renderer, any other root goes to the type
dispatcher as a bare scalar; the convenience entry point equals the full
one at starting indentation 0. -/
theorem C6_entry_point :
    (∀ (lf : CalendarFmt) (node : PNode) (i : Nat),
        plist_print_to_stream_with_indentation lf node false i = "") ∧
    (∀ (lf : CalendarFmt) (st : Bool) (i : Nat),
        plist_print_to_stream_with_indentation lf PNode.pNull st i = "") ∧
    (∀ (lf : CalendarFmt) (pairs : List (String × PNode)) (i : Nat),
        plist_print_to_stream_with_indentation lf (PNode.pDict pairs) true i =
          (plist_dict_print_to_stream lf pairs (i : Int)).1) ∧
    (∀ (lf : CalendarFmt) (items : List PNode) (i : Nat),
        plist_print_to_stream_with_indentation lf (PNode.pArray items) true i =
          (plist_array_print_to_stream lf items 0 (i : Int)).1) ∧
    (∀ (lf : CalendarFmt) (node : PNode) (i : Nat),
        node ≠ PNode.pNull →
        (∀ pairs, node ≠ PNode.pDict pairs) →
        (∀ items, node ≠ PNode.pArray items) →
        plist_print_to_stream_with_indentation lf node true i =
          (plist_node_print_to_stream lf node (i : Int)).1) ∧
    (∀ (lf : CalendarFmt) (node : PNode) (st : Bool),
        plist_print_to_stream lf node st =
          plist_print_to_stream_with_indentation lf node st 0) := by
  refine ⟨?_, ?_, ?_, ?_, ?_, fun lf node st => rfl⟩
  · intro lf node i
    cases node <;> rfl
  · intro lf st i
    cases st <;> rfl
  · intro lf pairs i
    rfl
  · intro lf items i
    rfl
  · intro lf node i hnull hdict harr
    cases node with
    | pNull => exact absurd rfl hnull
    | pDict pairs => exact absurd rfl (hdict pairs)
    | pArray items => exact absurd rfl (harr items)
    | _ => rfl

/-- Witness for C6 at a boolean root, whose rendering goes through the
bare-scalar branch of the entry point. -/
theorem C6_entry_point_witness :
    plist_print_to_stream_with_indentation lfNone (PNode.pBool true) true 0 =
      (plist_node_print_to_stream lfNone (PNode.pBool true) (0 : Int)).1 :=
  C6_entry_point.2.2.2.2.1 lfNone (PNode.pBool true) 0 (by simp) (by simp)
    (by simp)

/-- C7: a Date node's stored seconds value is shifted by the fixed non-Unix
reference epoch before calendar conversion; a successful conversion is
written newline-terminated, a failed conversion writes exactly one bare
newline; and a failed conversion does not prevent the later siblings of the
date node from being rendered. -/
theorem C7_date_rendering :
    (∀ (lf : CalendarFmt) (sec usec ind : Int) (s : String),
        lf (sec + MAC_EPOCH) = some s →
        plist_node_print_to_stream lf (PNode.pDate sec usec) ind =
          (s ++ "\n", ind)) ∧
    (∀ (lf : CalendarFmt) (sec usec ind : Int),
        lf (sec + MAC_EPOCH) = none →
        plist_node_print_to_stream lf (PNode.pDate sec usec) ind =
          ("\n", ind)) ∧
    MAC_EPOCH ≠ 0 ∧
    (∀ (lf : CalendarFmt) (sec usec : Int) (i : Nat) (ind : Int)
        (rest : List PNode),
        lf (sec + MAC_EPOCH) = none →
        (plist_array_print_to_stream lf (PNode.pDate sec usec :: rest) i
            ind).1 =
          indentFill ind ++ toString i ++ ": " ++ "\n" ++
            (plist_array_print_to_stream lf rest (i + 1) ind).1) := by
  refine ⟨?_, ?_, by decide, ?_⟩
  · intro lf sec usec ind s h
    simp [plist_node_print_to_stream, h]
  · intro lf sec usec ind h
    simp [plist_node_print_to_stream, h]
  · intro lf sec usec i ind rest h
    simp only [plist_array_print_to_stream, plist_node_print_to_stream, h,
      plist_node_print_snd]

/-- Witness for C7 with an always-failing calendar conversion; the failing
date is followed by a boolean sibling that still renders. -/
theorem C7_date_rendering_witness :
    plist_node_print_to_stream lfNone (PNode.pDate 0 0) 0 = ("\n", 0) ∧
    (plist_array_print_to_stream lfNone
        [PNode.pDate 0 0, PNode.pBool true] 0 0).1 =
      indentFill 0 ++ toString 0 ++ ": " ++ "\n" ++
        (plist_array_print_to_stream lfNone [PNode.pBool true] 1 0).1 :=
  ⟨C7_date_rendering.2.1 lfNone 0 0 0 rfl,
   C7_date_rendering.2.2.2 lfNone 0 0 0 0 [PNode.pBool true] rfl⟩

/-- C8 fails as stated: an empty Mapping passed as the root to the entry
point writes zero bytes, not one newline, because the entry point delegates
to the mapping renderer without emitting the container header. -/
theorem C8_counterexample :
    plist_print_to_stream lfNone (PNode.pDict []) true = "" ∧
    ¬ plist_print_to_stream lfNone (PNode.pDict []) true = "\n" ∧
    plist_print_to_stream lfNone (PNode.pArray []) true = "" := by decide

/-- C8 amended: an empty Sequence or empty Mapping reached through the type
dispatcher — that is, occurring nested inside another container — renders as
exactly one newline and no child lines; as the root passed to the entry
point it instead writes zero bytes. -/
theorem C8_empty_containers :
    (∀ (lf : CalendarFmt) (ind : Int),
        plist_node_print_to_stream lf (PNode.pArray []) ind = ("\n", ind)) ∧
    (∀ (lf : CalendarFmt) (ind : Int),
        plist_node_print_to_stream lf (PNode.pDict []) ind = ("\n", ind)) ∧
    (∀ (lf : CalendarFmt) (st : Bool) (i : Nat),
        plist_print_to_stream_with_indentation lf (PNode.pArray []) st i =
          "") ∧
    (∀ (lf : CalendarFmt) (st : Bool) (i : Nat),
        plist_print_to_stream_with_indentation lf (PNode.pDict []) st i =
          "") := by
  refine ⟨?_, ?_, ?_, ?_⟩
  · intro lf ind
    simp [plist_node_print_to_stream, plist_array_print_to_stream,
      add_sub_cancel_right]
  · intro lf ind
    simp [plist_node_print_to_stream, plist_dict_print_to_stream,
      add_sub_cancel_right]
  · intro lf st i
    cases st <;> rfl
  · intro lf st i
    cases st <;> rfl

/-- C9: a Mapping or Sequence root gets no header newline and no indent
increment: the entry point hands the root's own renderer the starting
indentation unchanged, so the root's immediate entries carry exactly
startIndent leading spaces, one level less than an identical container
nested in another container receives; an empty root container therefore
writes zero bytes. -/
theorem C9_root_container :
    (∀ (lf : CalendarFmt) (pairs : List (String × PNode)) (i : Nat),
        plist_print_to_stream_with_indentation lf (PNode.pDict pairs) true i =
          (plist_dict_print_to_stream lf pairs (i : Int)).1) ∧
    (∀ (lf : CalendarFmt) (items : List PNode) (i : Nat),
        plist_print_to_stream_with_indentation lf (PNode.pArray items) true i =
          (plist_array_print_to_stream lf items 0 (i : Int)).1) ∧
    (∀ (lf : CalendarFmt) (pairs : List (String × PNode)) (i : Nat),
        plist_print_to_stream_with_indentation lf (PNode.pDict pairs) true i =
          strConcat (pairs.map fun kv =>
            indentFill (i : Int) ++ kv.1 ++ dictArrayTag kv.2 ++ ": " ++
              (plist_node_print_to_stream lf kv.2 (i : Int)).1)) ∧
    (∀ (lf : CalendarFmt) (pairs : List (String × PNode)) (ind : Int),
        (plist_node_print_to_stream lf (PNode.pDict pairs) ind).1 =
          "\n" ++ (plist_dict_print_to_stream lf pairs (ind + 1)).1) ∧
    (∀ (lf : CalendarFmt) (items : List PNode) (ind : Int),
        (plist_node_print_to_stream lf (PNode.pArray items) ind).1 =
          "\n" ++ (plist_array_print_to_stream lf items 0 (ind + 1)).1) ∧
    (∀ (lf : CalendarFmt) (i : Nat),
        plist_print_to_stream_with_indentation lf (PNode.pDict []) true i =
          "") ∧
    (∀ (lf : CalendarFmt) (i : Nat),
        plist_print_to_stream_with_indentation lf (PNode.pArray []) true i =
          "") := by
  refine ⟨fun lf pairs i => rfl, fun lf items i => rfl, ?_, ?_, ?_,
    fun lf i => rfl, fun lf i => rfl⟩
  · intro lf pairs i
    exact plist_dict_print_fst lf pairs (i : Int)
  · intro lf pairs ind
    simp [plist_node_print_to_stream]
  · intro lf items ind
    simp [plist_node_print_to_stream]
